import Mathlib

/-!
Shallow embedding of the `berish-emitter` event registry and its
deduplication layer.

The repository holds two variants of the `EventEmitter` class:

* `src/src/eventEmitter.ts` — lifecycle hooks are encoded as ordinary
  subscriptions on the synthetic event names `off_${hash}` and
  `off_event_${name}`; `off` fires them through `emitSync` with no
  `try`/`catch`, and `offAll` merely resets the subscription array.
  This variant is embedded below as the functions in namespace `EV`.

* a second variant (in the unnamed source file) — lifecycle hooks live in a
  dedicated `_offTriggers` table keyed by the synthetic names
  `trigger_off_${hash}`, `trigger_off_event_${name}` and `trigger_off_all`;
  `off`/`offEvent`/`offAll` fire the full removal cascade inside a
  `try { ... } catch { /* IGNORE */ }`.  Embedded as namespace `TV`.

The `CacheEmitter` (`call` / `subscribe` / `unsubscribe`) is embedded as the
synchronous-step model in namespace `CC`.

Event names and subscription hashes are modelled as `String`; callback
payloads are a type parameter `α`.  Caller-supplied callbacks do not mutate
the registry in this model; what a call to the registry *does* to callbacks
is returned explicitly as the ordered list of invocations it performs.
A callback's ability to throw is modelled by an external behaviour map
`beh : String → Option String` from a callback's subscription hash to the
error it throws (`none` = returns normally).
-/

namespace BerishEmitter

/-- `EventObject` record `{ eventName, eventHash }` (the `callback` field is
modelled externally, via invocation lists and the behaviour map). -/
structure EventObject where
  eventName : String
  eventHash : String
deriving DecidableEq, Repr

/-- `StateObject` record `{ stateName, data }`. -/
structure StateObject (α : Type) where
  stateName : String
  data : α
deriving DecidableEq, Repr

/-- The `EventEmitter` instance state of `src/src/eventEmitter.ts`:
`_events` list and `_states` list. -/
structure Emitter (α : Type) where
  events : List EventObject
  states : List (StateObject α)
deriving DecidableEq, Repr

/-- Behaviour map: which error (if any) a callback identified by its
subscription hash throws when invoked. -/
abbrev Beh := String → Option String

/-- One performed callback invocation: the `data` argument passed
(`none` models JavaScript `undefined`) and the `eventHash` argument. -/
abbrev Invocation (α : Type) := Option α × String

namespace EV

/-- `getEvents(eventName)`: `this._events.filter(m => m.eventName === eventName)`. -/
def getEvents (s : Emitter α) (n : String) : List EventObject :=
  s.events.filter (fun m => m.eventName == n)

/-- `has(eventHash)`: `this._events.some(m => m.eventHash === eventHash)`. -/
def has (s : Emitter α) (h : String) : Bool :=
  s.events.any (fun m => m.eventHash == h)

/-- `hasEvent(eventName)`: `this._events.some(m => m.eventName === eventName)`. -/
def hasEvent (s : Emitter α) (n : String) : Bool :=
  s.events.any (fun m => m.eventName == n)

/-- `hasState(stateName)`: `this._states.some(m => m.stateName === stateName)`. -/
def hasState (s : Emitter α) (n : String) : Bool :=
  s.states.any (fun m => m.stateName == n)

/-- `on(eventName, callback)`: pushes `{eventName, eventHash, callback}` and,
if a state snapshot exists for the name, synchronously invokes the callback
with the first matching snapshot's data and the fresh hash.  The fresh guid
is supplied by the caller of the model.  Returns the new registry state and
the list of synchronous invocations performed during the call. -/
def onEvent (s : Emitter α) (n : String) (freshHash : String) :
    Emitter α × List (α × String) :=
  let s' : Emitter α := { s with events := s.events ++ [⟨n, freshHash⟩] }
  if hasState s n then
    match s.states.find? (fun m => m.stateName == n) with
    | some st => (s', [(st.data, freshHash)])
    | none => (s', [])
  else (s', [])

/-- Sequential invocation of a list of callbacks (the body of
`events.map(event => event.callback(data, event.eventHash))`): returns the
invocations performed in order and the first thrown error, which aborts the
rest of the sequence. -/
def runCallbacks (beh : Beh) : List (Invocation α) → List (Invocation α) × Option String
  | [] => ([], none)
  | iv :: rest =>
    match beh iv.2 with
    | some e => ([iv], some e)
    | none =>
      let (f, er) := runCallbacks beh rest
      (iv :: f, er)

/-- The callback-running core of `emitSync(eventName, data)`: snapshots the
current subscribers for the name and invokes each callback in registration
order; a synchronously thrown callback exception propagates and aborts
delivery to the remaining subscribers. -/
def emitSyncRun (s : Emitter α) (beh : Beh) (n : String) (d : Option α) :
    List (Invocation α) × Option String :=
  runCallbacks beh ((getEvents s n).map (fun ev => (d, ev.eventHash)))

/-- `emitSync(eventName, data)`: runs the callbacks; the method itself never
modifies `_events` or `_states`, so the registry state passes through
unchanged. -/
def emitSync (s : Emitter α) (beh : Beh) (n : String) (d : Option α) :
    Emitter α × List (Invocation α) × Option String :=
  ⟨s, emitSyncRun s beh n d⟩

/-- `off(eventHash)` of `src/src/eventEmitter.ts`: looks up the subscription,
filters it out, emits the synthetic `off_${eventHash}` event, and — only when
`currentEventName` is truthy (a non-empty name was found) and no
subscriptions remain for that name — emits `off_event_${name}`.  There is no
`try`/`catch`: a throwing callback escapes to the caller. -/
def off (s : Emitter α) (beh : Beh) (h : String) :
    Emitter α × List (Invocation α) × Option String :=
  let currentEvent := s.events.find? (fun m => m.eventHash == h)
  let currentEventName := currentEvent.map (fun m => m.eventName)
  let s1 : Emitter α := { s with events := s.events.filter (fun m => !(m.eventHash == h)) }
  let (f1, e1) := emitSyncRun s1 beh ("off_" ++ h) none
  match e1 with
  | some e => (s1, f1, some e)
  | none =>
    match currentEventName with
    | some nm =>
      if nm ≠ "" ∧ (s1.events.filter (fun m => m.eventName == nm)).length ≤ 0 then
        let (f2, e2) := emitSyncRun s1 beh ("off_event_" ++ nm) none
        (s1, f1 ++ f2, e2)
      else (s1, f1, none)
    | none => (s1, f1, none)

/-- `offEvent(eventName)`: filters out the name's subscriptions and emits
`off_event_${eventName}`. -/
def offEvent (s : Emitter α) (beh : Beh) (n : String) :
    Emitter α × List (Invocation α) × Option String :=
  let s1 : Emitter α := { s with events := s.events.filter (fun m => !(m.eventName == n)) }
  let (f, e) := emitSyncRun s1 beh ("off_event_" ++ n) none
  (s1, f, e)

/-- `offAll()` of `src/src/eventEmitter.ts`: `this._events = []` — no hook
emission of any kind. -/
def offAll (s : Emitter α) : Emitter α × List (Invocation α) × Option String :=
  ({ s with events := [] }, [], none)

/-- `removeState(stateName)`. -/
def removeState (s : Emitter α) (n : String) : Emitter α :=
  { s with states := s.states.filter (fun m => !(m.stateName == n)) }

/-- The `_states` update shared by `emitStateSync` and `emitStateAsync`:
`if (this.hasState(stateName)) this.removeState(stateName); this._states.push({stateName, data})`. -/
def statesAfterEmitState (s : Emitter α) (n : String) (d : α) : Emitter α :=
  let s1 := if hasState s n then removeState s n else s
  { s1 with states := s1.states ++ [⟨n, d⟩] }

/-- `emitStateSync(stateName, data)`: updates the snapshot table, then
performs the synchronous emission. -/
def emitStateSync (s : Emitter α) (beh : Beh) (n : String) (d : α) :
    Emitter α × List (Invocation α) × Option String :=
  let s2 := statesAfterEmitState s n d
  let (f, e) := emitSyncRun s2 beh n (some d)
  (s2, f, e)

end EV

namespace TV

/-- The trigger-table `EventEmitter` variant: `_events`, `_offTriggers`
and `_states`. -/
structure TrigEmitter (α : Type) where
  events : List EventObject
  offTriggers : List EventObject
  states : List (StateObject α)
deriving DecidableEq, Repr

/-- `getOffName(eventHash)`. -/
def getOffName (h : String) : String := "trigger_off_" ++ h

/-- `getOffEventName(eventName)`. -/
def getOffEventName (n : String) : String := "trigger_off_event_" ++ n

/-- `getOffAllName()`. -/
def getOffAllName : String := "trigger_off_all"

/-- Sequential firing of a list of off-trigger records
(`offEvents.map(offEvent => offEvent.callback(null, offEvent.eventHash))`):
returns the hashes of the trigger callbacks invoked, in order, and the first
thrown error, which aborts the rest. -/
def fireList (beh : Beh) : List EventObject → List String × Option String
  | [] => ([], none)
  | t :: rest =>
    match beh t.eventHash with
    | some e => ([t.eventHash], some e)
    | none =>
      let (f, er) := fireList beh rest
      (t.eventHash :: f, er)

/-- The trigger records registered under a synthetic key, in order. -/
def trigsFor (s : TrigEmitter α) (key : String) : List EventObject :=
  s.offTriggers.filter (fun m => m.eventName == key)

/-- Fires `_offTriggers.filter(m => m.eventName === key)`, as in `_offEmit`,
`_offEventEmit` and `_offAllEmit`. -/
def fireTriggers (s : TrigEmitter α) (beh : Beh) (key : String) :
    List String × Option String :=
  fireList beh (trigsFor s key)

/-- The hashes of the trigger callbacks registered under a synthetic key, in
registration order: what firing that key invokes when nothing throws. -/
def trigHashes (s : TrigEmitter α) (key : String) : List String :=
  (trigsFor s key).map (fun m => m.eventHash)

/-- Fires trigger groups for a list of synthetic keys in sequence; a thrown
error aborts the remaining groups (it is about to hit the surrounding
`try`/`catch`). -/
def fireSeq (s : TrigEmitter α) (beh : Beh) : List String → List String × Option String
  | [] => ([], none)
  | k :: ks =>
    let (f, e) := fireTriggers s beh k
    match e with
    | some er => (f, some er)
    | none =>
      let (f', e') := fireSeq s beh ks
      (f ++ f', e')

/-- `off(eventHash)` of the trigger-table variant: looks the subscription up,
removes it (`_offAction`), then inside `try { ... } catch { /* IGNORE */ }`
fires `_offEmit(eventHash)`, then `_offEventEmit(eventName)` when no
subscriptions remain for the (possibly `undefined`) name, then
`_offAllEmit()` when the registry holds no subscriptions.  The third
component is the error escaping to the caller: always `none` (swallowed). -/
def offT (s : TrigEmitter α) (beh : Beh) (h : String) :
    TrigEmitter α × List String × Option String :=
  let currentEvent := s.events.find? (fun m => m.eventHash == h)
  let eventName := currentEvent.map (fun m => m.eventName)
  let s1 : TrigEmitter α := { s with events := s.events.filter (fun m => !(m.eventHash == h)) }
  let (f1, e1) := fireTriggers s1 beh (getOffName h)
  match e1 with
  | some _ => (s1, f1, none)
  | none =>
    let (f2, e2) :=
      if (s1.events.filter (fun m => some m.eventName == eventName)).length ≤ 0 then
        fireTriggers s1 beh (getOffEventName (match eventName with | some n => n | none => "undefined"))
      else ([], none)
    match e2 with
    | some _ => (s1, f1 ++ f2, none)
    | none =>
      let (f3, _) :=
        if s1.events.length ≤ 0 then fireTriggers s1 beh getOffAllName else ([], none)
      (s1, f1 ++ f2 ++ f3, none)

/-- `LINQ.distinct(m => m)`: first occurrences, in order. -/
def distinctList (l : List String) : List String :=
  l.foldl (fun acc x => if acc.contains x then acc else acc ++ [x]) []

/-- `offAll()` of the trigger-table variant: snapshots all hashes and the
distinct names, fires — inside `try`/`catch` — `_offEmit` for each hash,
`_offEventEmit` for each distinct name, and `_offAllEmit`, then clears
`_events` (`_offAllAction`).  No error escapes. -/
def offAllT (s : TrigEmitter α) (beh : Beh) : TrigEmitter α × List String :=
  let eventHashes := s.events.map (fun m => m.eventHash)
  let eventNames := distinctList (s.events.map (fun m => m.eventName))
  let (fired, _) := fireSeq s beh
    (eventHashes.map getOffName ++ eventNames.map getOffEventName ++ [getOffAllName])
  ({ s with events := [] }, fired)

end TV

namespace PM

/-- The eventual settlement of one callback's returned promise: the tick at
which it settles and, when it rejects, the rejection reason (`none` models a
resolution). -/
structure TimedResult (α : Type) where
  time : Nat
  rejects : Option α
deriving DecidableEq, Repr

/-- Whether the settlement is a rejection. -/
def isRejection (r : TimedResult α) : Bool := r.rejects.isSome

/-- Stable insertion into a settlement-time-ordered list. -/
def insertByTime (x : TimedResult α) : List (TimedResult α) → List (TimedResult α)
  | [] => [x]
  | y :: ys => if y.time ≤ x.time then y :: insertByTime x ys else x :: y :: ys

/-- Chronological order of the settlements (stable in the original order for
equal ticks). -/
def sortByTime : List (TimedResult α) → List (TimedResult α)
  | [] => []
  | x :: xs => insertByTime x (sortByTime xs)

/-- The tick at which every input has settled. -/
def allSettledTime (rs : List (TimedResult α)) : Nat :=
  (rs.map (fun r => r.time)).foldr max 0

/-- The list is in settlement-time order. -/
def SortedByTime (l : List (TimedResult α)) : Prop :=
  List.Pairwise (fun a b => a.time ≤ b.time) l

/-- `Promise.all` over the input settlements, processed in chronological
order: the first rejection to settle rejects the combined promise with its
reason at its own tick; with no rejection the combined promise resolves once
the last input has resolved. -/
def promiseAll (rs : List (TimedResult α)) : TimedResult α :=
  match (sortByTime rs).find? isRejection with
  | some r => ⟨r.time, r.rejects⟩
  | none => ⟨allSettledTime rs, none⟩

/-- `emitAsync(eventName, data)`: `await Promise.all(events.map(event => event.callback(data, event.eventHash)))`
— the subscriber snapshot is taken synchronously; `res` assigns to each
subscription hash the settlement of its callback's result.  The combined
settlement is `Promise.all` of those. -/
def emitAsyncSettled (s : Emitter β) (n : String) (res : String → TimedResult α) :
    TimedResult α :=
  promiseAll ((EV.getEvents s n).map (fun ev => res ev.eventHash))

end PM

namespace CC

/-- The scheduler-visible state of a `CacheEmitter`: its private emitter and
the queue of scheduled (not yet run) `realCallback` producer invocations,
identified by their cache key. -/
structure CacheState (α : Type) where
  emitter : Emitter α
  pendingProducers : List String
deriving Repr

/-- The synchronous portion of `CacheEmitter.call(eventName, realCallback)`
(identical in `EventEmitter.cacheCall`): reads `hasEvent(eventName)`,
registers this caller's listener via `on`, and — only when the key was idle
— schedules the producer on the microtask queue
(`Promise.resolve().then(() => realCallback())`); the producer itself runs
only after the current tick. -/
def callSync (s : CacheState α) (key : String) (freshHash : String) : CacheState α :=
  let hasEv := EV.hasEvent s.emitter key
  let em := (EV.onEvent s.emitter key freshHash).1
  { emitter := em
    pendingProducers := if hasEv then s.pendingProducers else s.pendingProducers ++ [key] }

/-- A batch of `call` invocations for one key issued in the same synchronous
tick (no suspension point between them), each with its own fresh guid. -/
def callBatch (s : CacheState α) (key : String) (hashes : List String) : CacheState α :=
  hashes.foldl (fun st h => callSync st key h) s

/-- The `type` tag of the message `call` broadcasts. -/
inductive ResponseType
  | resolve
  | reject
deriving DecidableEq, Repr

/-- The message `{ data, type }` emitted to every listener of the key. -/
structure CachedMessage (α : Type) where
  data : α
  type : ResponseType
deriving DecidableEq, Repr

/-- The settlement the producer's outcome is turned into:
`.then(result => emitAsync(eventName, { data: result, type: 'resolve' }))`
and `.catch(err => emitAsync(eventName, { data: err, type: 'resolve' }))` —
both branches tag with `'resolve'`. -/
def settleMessage (outcome : Except α α) : CachedMessage α :=
  match outcome with
  | .ok r => ⟨r, .resolve⟩
  | .error e => ⟨e, .resolve⟩

/-- How a waiting caller's promise settles. -/
inductive Settlement (α : Type)
  | resolved (d : α)
  | rejected (d : α)
deriving DecidableEq, Repr

/-- `responseCall(type, data)`: `'resolve'` resolves the caller's promise
with `data`, `'reject'` rejects it with `data`. -/
def responseCall (t : ResponseType) (d : α) : Settlement α :=
  match t with
  | .resolve => .resolved d
  | .reject => .rejected d

/-- How every listener currently registered for `key` settles its caller's
promise when the producer's outcome is broadcast. -/
def broadcastSettle (s : Emitter β) (key : String) (outcome : Except α α) :
    List (Settlement α) :=
  (EV.getEvents s key).map
    (fun _ => responseCall (settleMessage outcome).type (settleMessage outcome).data)

end CC

/-- A two-subscriber registry used as concrete input for the `emitAsync`
settlement analysis. -/
def exEmitter : Emitter Nat := ⟨[⟨"e", "a"⟩, ⟨"e", "b"⟩], []⟩

/-- Callback settlements where both subscribers resolve (ticks 1 and 5). -/
def exResolveAll : String → PM.TimedResult String :=
  fun h => if h = "a" then ⟨1, none⟩ else ⟨5, none⟩

/-- Callback settlements where the first subscriber rejects at tick 1 and
the second resolves at tick 5. -/
def exWithRejection : String → PM.TimedResult String :=
  fun h => if h = "a" then ⟨1, some "boom"⟩ else ⟨5, none⟩

/-- At most one state snapshot per name. -/
def statesUnique (s : Emitter α) : Prop :=
  ∀ n : String, (s.states.filter (fun m => m.stateName == n)).length ≤ 1

/-- The registry states reachable through the public operations of
`src/src/eventEmitter.ts`.  `emitStateSync` and `emitStateAsync` perform the
same `_states` update, so one constructor covers both; `emitSync`,
`emitAsync` and the query methods do not modify the instance state;
`createNewEmitter` installs an arbitrary caller-filtered event list and a
fresh empty `_states`. -/
inductive Reachable {α : Type} : Emitter α → Prop
  | init : Reachable ⟨[], []⟩
  | subscribeStep (s : Emitter α) (n h : String) :
      Reachable s → Reachable (EV.onEvent s n h).1
  | offStep (s : Emitter α) (beh : Beh) (h : String) :
      Reachable s → Reachable (EV.off s beh h).1
  | offEventStep (s : Emitter α) (beh : Beh) (n : String) :
      Reachable s → Reachable (EV.offEvent s beh n).1
  | offAllStep (s : Emitter α) :
      Reachable s → Reachable (EV.offAll s).1
  | emitStateStep (s : Emitter α) (beh : Beh) (n : String) (d : α) :
      Reachable s → Reachable (EV.emitStateSync s beh n d).1
  | removeStateStep (s : Emitter α) (n : String) :
      Reachable s → Reachable (EV.removeState s n)
  | deriveStep (s : Emitter α) (evs : List EventObject) :
      Reachable s → Reachable ⟨evs, []⟩

lemma getEvents_eq_nil {α : Type} {s : Emitter α} {n : String}
    (h : EV.hasEvent s n = false) : EV.getEvents s n = [] := by
  rw [EV.hasEvent, List.any_eq_false] at h
  rw [EV.getEvents, List.filter_eq_nil_iff]
  exact h

lemma filter_ne_hash_eq_self {α : Type} {s : Emitter α} {h : String}
    (hh : EV.has s h = false) :
    s.events.filter (fun m => !(m.eventHash == h)) = s.events := by
  rw [EV.has, List.any_eq_false] at hh
  apply List.filter_eq_self.mpr
  intro a ha
  simpa using hh a ha

lemma find?_hash_eq_none {α : Type} {s : Emitter α} {h : String}
    (hh : EV.has s h = false) :
    s.events.find? (fun m => m.eventHash == h) = none := by
  rw [EV.has, List.any_eq_false] at hh
  rw [List.find?_eq_none]
  exact hh

lemma states_onEvent {α : Type} (s : Emitter α) (n h : String) :
    ((EV.onEvent s n h).1).states = s.states := by
  rw [EV.onEvent]
  split
  · split <;> rfl
  · rfl

lemma emitSync_fst {α : Type} (s : Emitter α) (beh : Beh) (n : String) (d : Option α) :
    (EV.emitSync s beh n d).1 = s := rfl

lemma states_off {α : Type} (s : Emitter α) (beh : Beh) (h : String) :
    ((EV.off s beh h).1).states = s.states := by
  rw [EV.off]
  repeat' split
  all_goals rfl

lemma states_offEvent {α : Type} (s : Emitter α) (beh : Beh) (n : String) :
    ((EV.offEvent s beh n).1).states = s.states := rfl

lemma emitStateSync_fst {α : Type} (s : Emitter α) (beh : Beh) (n : String) (d : α) :
    (EV.emitStateSync s beh n d).1 = EV.statesAfterEmitState s n d := rfl

lemma filter_stateName_nil {α : Type} {s : Emitter α} {n : String}
    (h : EV.hasState s n = false) :
    s.states.filter (fun x => x.stateName == n) = [] := by
  rw [EV.hasState, List.any_eq_false] at h
  exact List.filter_eq_nil_iff.mpr h

lemma filter_removeState_nil {α : Type} (s : Emitter α) (n : String) :
    (EV.removeState s n).states.filter (fun x => x.stateName == n) = [] := by
  rw [EV.removeState, List.filter_filter]
  apply List.filter_eq_nil_iff.mpr
  intro a _
  simp

lemma filter_state_sub_le {α : Type} (l : List (StateObject α))
    (p : StateObject α → Bool) (m : String) :
    ((l.filter p).filter (fun x => x.stateName == m)).length ≤
      (l.filter (fun x => x.stateName == m)).length := by
  apply List.Sublist.length_le
  rw [List.filter_filter]
  apply List.monotone_filter_right
  intro a ha
  exact ((Bool.and_eq_true _ _).mp ha).1

lemma statesUnique_statesAfterEmitState {α : Type} {s : Emitter α} (n : String) (d : α)
    (hs : statesUnique s) : statesUnique (EV.statesAfterEmitState s n d) := by
  intro m
  simp only [EV.statesAfterEmitState]
  by_cases hm : m = n
  · subst hm
    have hb : ((if EV.hasState s m = true then EV.removeState s m else s).states.filter
        (fun x => x.stateName == m)) = [] := by
      by_cases hn : EV.hasState s m = true
      · rw [if_pos hn]
        exact filter_removeState_nil s m
      · rw [if_neg hn]
        have hf : EV.hasState s m = false := by
          revert hn
          cases EV.hasState s m <;> simp
        exact filter_stateName_nil hf
    simp [List.filter_append, hb]
  · have hlast : (([(⟨n, d⟩ : StateObject α)]).filter (fun x => x.stateName == m)) = [] := by
      simp [show ¬(n = m) from fun hh => hm hh.symm]
    rw [List.filter_append, hlast, List.length_append, List.length_nil, Nat.add_zero]
    by_cases hn : EV.hasState s n = true
    · rw [if_pos hn]
      exact le_trans (filter_state_sub_le _ _ _) (hs m)
    · rw [if_neg hn]
      exact hs m

lemma statesUnique_removeState {α : Type} {s : Emitter α} (n : String)
    (hs : statesUnique s) : statesUnique (EV.removeState s n) := by
  intro m
  exact le_trans (filter_state_sub_le _ _ _) (hs m)

lemma events_onEvent {α : Type} (s : Emitter α) (n h : String) :
    ((EV.onEvent s n h).1).events = s.events ++ [⟨n, h⟩] := by
  rw [EV.onEvent]
  repeat' split
  all_goals rfl

lemma runCallbacks_nothrow {α : Type} {beh : Beh} (hb : ∀ x, beh x = none)
    (ivs : List (Invocation α)) : EV.runCallbacks beh ivs = (ivs, none) := by
  induction ivs with
  | nil => rfl
  | cons iv rest ih => simp [EV.runCallbacks, hb, ih]

lemma fireList_nothrow {beh : Beh} (hb : ∀ x, beh x = none)
    (l : List EventObject) : TV.fireList beh l = (l.map (fun m => m.eventHash), none) := by
  induction l with
  | nil => rfl
  | cons t rest ih => simp [TV.fireList, hb, ih]

lemma fireTriggers_nothrow {α : Type} {beh : Beh} (hb : ∀ x, beh x = none)
    (s : TV.TrigEmitter α) (key : String) :
    TV.fireTriggers s beh key = (TV.trigHashes s key, none) := by
  rw [TV.fireTriggers, TV.trigHashes, fireList_nothrow hb]

lemma fireSeq_nothrow {α : Type} {beh : Beh} (hb : ∀ x, beh x = none)
    (s : TV.TrigEmitter α) (ks : List String) :
    TV.fireSeq s beh ks = (ks.flatMap (fun k => TV.trigHashes s k), none) := by
  induction ks with
  | nil => rfl
  | cons k rest ih => simp [TV.fireSeq, fireTriggers_nothrow hb, ih]

lemma mem_insertByTime {α : Type} {a x : PM.TimedResult α} {l : List (PM.TimedResult α)} :
    a ∈ PM.insertByTime x l ↔ a = x ∨ a ∈ l := by
  induction l with
  | nil => simp [PM.insertByTime]
  | cons y ys ih =>
    rw [PM.insertByTime]
    split
    · simp only [List.mem_cons, ih]
      tauto
    · simp [List.mem_cons]

lemma mem_sortByTime {α : Type} {a : PM.TimedResult α} {l : List (PM.TimedResult α)} :
    a ∈ PM.sortByTime l ↔ a ∈ l := by
  induction l with
  | nil => exact Iff.rfl
  | cons x xs ih =>
    rw [PM.sortByTime, mem_insertByTime]
    simp [ih]

lemma sorted_insertByTime {α : Type} {x : PM.TimedResult α} {l : List (PM.TimedResult α)}
    (hl : PM.SortedByTime l) : PM.SortedByTime (PM.insertByTime x l) := by
  induction l with
  | nil => exact List.pairwise_singleton _ _
  | cons y ys ih =>
    rw [PM.insertByTime]
    rcases List.pairwise_cons.mp hl with ⟨hy, hys⟩
    split
    · refine List.pairwise_cons.mpr ⟨?_, ih hys⟩
      intro a ha
      rcases mem_insertByTime.mp ha with rfl | ha'
      · assumption
      · exact hy a ha'
    · refine List.pairwise_cons.mpr ⟨?_, hl⟩
      intro a ha
      have hxy : x.time ≤ y.time := le_of_not_le (by assumption)
      rcases List.mem_cons.mp ha with rfl | ha'
      · exact hxy
      · exact le_trans hxy (hy a ha')

lemma sorted_sortByTime {α : Type} (l : List (PM.TimedResult α)) :
    PM.SortedByTime (PM.sortByTime l) := by
  induction l with
  | nil => exact List.Pairwise.nil
  | cons x xs ih => exact sorted_insertByTime ih

lemma find?_min_of_sorted {α : Type} {l : List (PM.TimedResult α)} {x : PM.TimedResult α}
    (hl : PM.SortedByTime l) (hf : l.find? PM.isRejection = some x) :
    ∀ y ∈ l, PM.isRejection y = true → x.time ≤ y.time := by
  induction l with
  | nil => simp at hf
  | cons a t ih =>
    rcases List.pairwise_cons.mp hl with ⟨ha, ht⟩
    intro y hy hyr
    by_cases hra : PM.isRejection a = true
    · rw [List.find?_cons_of_pos _ hra] at hf
      cases hf
      rcases List.mem_cons.mp hy with rfl | hy'
      · exact le_refl _
      · exact ha y hy'
    · rw [List.find?_cons_of_neg _ (by simpa using hra)] at hf
      rcases List.mem_cons.mp hy with rfl | hy'
      · exact absurd hyr hra
      · exact ih ht hf y hy' hyr

lemma le_allSettledTime {α : Type} {r : PM.TimedResult α} {rs : List (PM.TimedResult α)}
    (h : r ∈ rs) : r.time ≤ PM.allSettledTime rs := by
  induction rs with
  | nil => simp at h
  | cons a t ih =>
    rw [PM.allSettledTime, List.map_cons, List.foldr_cons]
    rcases List.mem_cons.mp h with rfl | h'
    · exact le_max_left _ _
    · exact le_trans (ih h') (le_max_right _ _)

lemma promiseAll_no_rejection {α : Type} {rs : List (PM.TimedResult α)}
    (h : ∀ r ∈ rs, PM.isRejection r = false) :
    PM.promiseAll rs = ⟨PM.allSettledTime rs, none⟩ := by
  have hn : (PM.sortByTime rs).find? PM.isRejection = none :=
    List.find?_eq_none.mpr (fun a ha => by simp [h a (mem_sortByTime.mp ha)])
  rw [PM.promiseAll, hn]

lemma promiseAll_with_rejection {α : Type} {rs : List (PM.TimedResult α)}
    {r : PM.TimedResult α} (hr : r ∈ rs) (hrj : PM.isRejection r = true) :
    ∃ x ∈ rs, PM.isRejection x = true ∧ PM.promiseAll rs = ⟨x.time, x.rejects⟩ ∧
      ∀ y ∈ rs, PM.isRejection y = true → x.time ≤ y.time := by
  rcases hfind : (PM.sortByTime rs).find? PM.isRejection with _ | x
  · exact absurd hrj (List.find?_eq_none.mp hfind r (mem_sortByTime.mpr hr))
  · refine ⟨x, mem_sortByTime.mp (List.mem_of_find?_eq_some hfind),
      List.find?_some hfind, ?_, ?_⟩
    · rw [PM.promiseAll, hfind]
    · intro y hy hyr
      exact find?_min_of_sorted (sorted_sortByTime rs) hfind y (mem_sortByTime.mpr hy) hyr

lemma callSync_emitter_events {α : Type} (s : CC.CacheState α) (key h : String) :
    (CC.callSync s key h).emitter.events = s.emitter.events ++ [⟨key, h⟩] := by
  simp only [CC.callSync]
  exact events_onEvent s.emitter key h

lemma callSync_emitter_states {α : Type} (s : CC.CacheState α) (key h : String) :
    (CC.callSync s key h).emitter.states = s.emitter.states := by
  simp only [CC.callSync]
  exact states_onEvent s.emitter key h

lemma hasEvent_callSync {α : Type} (s : CC.CacheState α) (key h : String) :
    EV.hasEvent (CC.callSync s key h).emitter key = true := by
  rw [EV.hasEvent, callSync_emitter_events, List.any_append]
  simp

lemma callSync_pending_active {α : Type} {s : CC.CacheState α} {key : String} (h : String)
    (hk : EV.hasEvent s.emitter key = true) :
    (CC.callSync s key h).pendingProducers = s.pendingProducers := by
  simp [CC.callSync, hk]

lemma callSync_pending_idle {α : Type} {s : CC.CacheState α} {key : String} (h : String)
    (hk : EV.hasEvent s.emitter key = false) :
    (CC.callSync s key h).pendingProducers = s.pendingProducers ++ [key] := by
  simp [CC.callSync, hk]

lemma callBatch_cons {α : Type} (s : CC.CacheState α) (key h : String) (t : List String) :
    CC.callBatch s key (h :: t) = CC.callBatch (CC.callSync s key h) key t := rfl

lemma callBatch_pending_active {α : Type} {key : String} (hs : List String) :
    ∀ {s : CC.CacheState α}, EV.hasEvent s.emitter key = true →
      (CC.callBatch s key hs).pendingProducers = s.pendingProducers := by
  induction hs with
  | nil => intro s _; rfl
  | cons h t ih =>
    intro s hk
    rw [callBatch_cons, ih (hasEvent_callSync s key h), callSync_pending_active h hk]

lemma callBatch_events {α : Type} (key : String) (hs : List String) :
    ∀ s : CC.CacheState α, (CC.callBatch s key hs).emitter.events
      = s.emitter.events ++ hs.map (fun h => (⟨key, h⟩ : EventObject)) := by
  induction hs with
  | nil => intro s; simp [CC.callBatch]
  | cons h t ih =>
    intro s
    rw [callBatch_cons, ih, callSync_emitter_events]
    simp

lemma callBatch_states {α : Type} (key : String) (hs : List String) :
    ∀ s : CC.CacheState α, (CC.callBatch s key hs).emitter.states = s.emitter.states := by
  induction hs with
  | nil => intro s; rfl
  | cons h t ih =>
    intro s
    rw [callBatch_cons, ih, callSync_emitter_states]

lemma find?_hash_unique {l : List EventObject} {N id : String}
    (hu : List.Pairwise (fun a b => a.eventHash ≠ b.eventHash) l)
    (hmem : (⟨N, id⟩ : EventObject) ∈ l) :
    l.find? (fun m => m.eventHash == id) = some ⟨N, id⟩ := by
  induction l with
  | nil => simp at hmem
  | cons a t ih =>
    rcases List.pairwise_cons.mp hu with ⟨ha, ht⟩
    by_cases hah : (a.eventHash == id) = true
    · have hstep : List.find? (fun m => m.eventHash == id) (a :: t) = some a :=
        List.find?_cons_of_pos _ hah
      rw [hstep]
      rcases List.mem_cons.mp hmem with heq | hmem'
      · rw [heq]
      · exact absurd (by simpa using hah) (ha _ hmem')
    · have hstep : List.find? (fun m => m.eventHash == id) (a :: t)
          = List.find? (fun m => m.eventHash == id) t :=
        List.find?_cons_of_neg _ (by simpa using hah)
      rw [hstep]
      rcases List.mem_cons.mp hmem with heq | hmem'
      · exact absurd (by rw [← heq]; simp) hah
      · exact ih ht hmem'

lemma count_hash_zero_of_forall_ne (l : List EventObject) (p : EventObject → Bool)
    (hsh : String) (hx : ∀ x ∈ l, x.eventHash ≠ hsh) :
    ((l.filter p).map (fun m => m.eventHash)).count hsh = 0 := by
  rw [List.count_eq_zero]
  intro hmem
  rcases List.mem_map.mp hmem with ⟨x, hxf, hxh⟩
  exact hx x (List.mem_of_mem_filter hxf) hxh

lemma count_filterMap_hash (l : List EventObject) (key : String) (t : EventObject)
    (hu : List.Pairwise (fun a b => a.eventHash ≠ b.eventHash) l) (ht : t ∈ l) :
    ((l.filter (fun m => m.eventName == key)).map (fun m => m.eventHash)).count t.eventHash
      = if t.eventName == key then 1 else 0 := by
  induction l with
  | nil => simp at ht
  | cons a rest ih =>
    rcases List.pairwise_cons.mp hu with ⟨ha, hrest⟩
    rcases List.mem_cons.mp ht with heq | ht'
    · subst heq
      have h0 : ((rest.filter (fun m => m.eventName == key)).map
          (fun m => m.eventHash)).count t.eventHash = 0 :=
        count_hash_zero_of_forall_ne rest _ _ (fun x hx => (ha x hx).symm)
      by_cases hk : (t.eventName == key) = true
      · have hstep : (t :: rest).filter (fun m => m.eventName == key)
            = t :: rest.filter (fun m => m.eventName == key) :=
          List.filter_cons_of_pos hk
        rw [hstep, List.map_cons, List.count_cons, h0, if_pos hk]
        simp
      · have hstep : (t :: rest).filter (fun m => m.eventName == key)
            = rest.filter (fun m => m.eventName == key) :=
          List.filter_cons_of_neg (by simpa using hk)
        rw [hstep, h0, if_neg hk]
    · have hne : a.eventHash ≠ t.eventHash := ha t ht'
      by_cases hk : (a.eventName == key) = true
      · have hstep : (a :: rest).filter (fun m => m.eventName == key)
            = a :: rest.filter (fun m => m.eventName == key) :=
          List.filter_cons_of_pos hk
        rw [hstep, List.map_cons, List.count_cons, ih hrest ht']
        simp [hne]
      · have hstep : (a :: rest).filter (fun m => m.eventName == key)
            = rest.filter (fun m => m.eventName == key) :=
          List.filter_cons_of_neg (by simpa using hk)
        rw [hstep, ih hrest ht']

lemma count_trigHashes {α : Type} (s : TV.TrigEmitter α) (key : String) (t : EventObject)
    (hu : List.Pairwise (fun a b => a.eventHash ≠ b.eventHash) s.offTriggers)
    (ht : t ∈ s.offTriggers) :
    (TV.trigHashes s key).count t.eventHash = if t.eventName == key then 1 else 0 :=
  count_filterMap_hash s.offTriggers key t hu ht

lemma count_flatMap_zero {β : Type} (x : String) (ks : List β) (f : β → List String)
    (h : ∀ k ∈ ks, (f k).count x = 0) : (ks.flatMap f).count x = 0 := by
  induction ks with
  | nil => rfl
  | cons k t ih =>
    rw [List.flatMap_cons, List.count_append, h k (List.mem_cons_self k t),
      ih (fun j hj => h j (List.mem_cons_of_mem k hj))]

lemma mem_distinctList_aux (l : List String) :
    ∀ (acc : List String) (a : String),
      a ∈ l.foldl (fun acc x => if acc.contains x then acc else acc ++ [x]) acc →
        a ∈ acc ∨ a ∈ l := by
  induction l with
  | nil => intro acc a h; exact Or.inl h
  | cons x t ih =>
    intro acc a h
    rw [List.foldl_cons] at h
    rcases ih _ a h with hacc | ht
    · by_cases hc : acc.contains x = true
      · rw [if_pos hc] at hacc
        exact Or.inl hacc
      · rw [if_neg hc] at hacc
        rcases List.mem_append.mp hacc with h1 | h2
        · exact Or.inl h1
        · simp only [List.mem_singleton] at h2
          exact Or.inr (h2 ▸ List.mem_cons_self x t)
    · exact Or.inr (List.mem_cons_of_mem x ht)

lemma mem_of_mem_distinctList {a : String} {l : List String}
    (h : a ∈ TV.distinctList l) : a ∈ l := by
  rcases mem_distinctList_aux l [] a h with h0 | h1
  · simp at h0
  · exact h1

/-- C6: after `setState(N, v)` (`emitStateSync` and `emitStateAsync` share
the same `_states` update), a subscription subsequently created for `N` has
its callback invoked synchronously during the `on` call, exactly once, with
the snapshot value current at subscribe time (`v`) and the fresh
subscription id. -/
theorem state_replay_on_subscribe {α : Type} (s : Emitter α) (beh : Beh)
    (n : String) (v : α) (hash : String) :
    (EV.onEvent ((EV.emitStateSync s beh n v).1) n hash).2 = [(v, hash)] := by
  rw [emitStateSync_fst]
  have hbase : ∀ x ∈ (if EV.hasState s n = true then EV.removeState s n else s).states,
      ¬(x.stateName == n) = true := by
    intro x hx hxx
    by_cases hn : EV.hasState s n = true
    · rw [if_pos hn] at hx
      have hm : x ∈ (EV.removeState s n).states.filter (fun m => m.stateName == n) :=
        List.mem_filter.mpr ⟨hx, hxx⟩
      rw [filter_removeState_nil] at hm
      simp at hm
    · rw [if_neg hn] at hx
      have hf : EV.hasState s n = false := by
        revert hn
        cases EV.hasState s n <;> simp
      have hm : x ∈ s.states.filter (fun m => m.stateName == n) :=
        List.mem_filter.mpr ⟨hx, hxx⟩
      rw [filter_stateName_nil hf] at hm
      simp at hm
  have hstates : (EV.statesAfterEmitState s n v).states
      = (if EV.hasState s n = true then EV.removeState s n else s).states ++ [⟨n, v⟩] := rfl
  have hhs : EV.hasState (EV.statesAfterEmitState s n v) n = true := by
    rw [EV.hasState, hstates, List.any_append]
    simp
  have hfind : (EV.statesAfterEmitState s n v).states.find? (fun m => m.stateName == n)
      = some ⟨n, v⟩ := by
    rw [hstates, List.find?_append, List.find?_eq_none.mpr hbase]
    simp
  simp [EV.onEvent, hhs, hfind]

/-- C10: emitting a name with no registered subscription invokes no
callback, leaves the subscription list and the state table unchanged, and
the asynchronous emission settles as a resolution (of the empty
`Promise.all`). -/
theorem emit_no_subscribers_noop {α γ : Type} (s : Emitter α) (beh : Beh) (n : String)
    (d : α) (res : String → PM.TimedResult γ) (h : EV.hasEvent s n = false) :
    EV.emitSync s beh n (some d) = (s, [], none) ∧
    EV.getEvents s n = [] ∧
    PM.emitAsyncSettled s n res = ⟨0, none⟩ := by
  have hg : EV.getEvents s n = [] := getEvents_eq_nil h
  refine ⟨?_, hg, ?_⟩
  · rw [EV.emitSync, EV.emitSyncRun, hg]
    rfl
  · rw [PM.emitAsyncSettled, hg]
    rfl

/-- Witness for C10 at a concrete registry. -/
theorem emit_no_subscribers_noop_witness :
    EV.emitSync (⟨[⟨"a", "x"⟩], []⟩ : Emitter Nat) (fun _ => none) "b" (some 7)
        = (⟨[⟨"a", "x"⟩], []⟩, [], none) ∧
    EV.getEvents (⟨[⟨"a", "x"⟩], []⟩ : Emitter Nat) "b" = [] ∧
    PM.emitAsyncSettled (⟨[⟨"a", "x"⟩], []⟩ : Emitter Nat) "b"
        (fun _ => (⟨3, none⟩ : PM.TimedResult Nat)) = ⟨0, none⟩ :=
  emit_no_subscribers_noop _ _ _ _ _ (by decide)

/-- C9: every reachable registry state holds at most one state snapshot per
name; the induction shows the invariant is preserved by every operation,
including the shared `emitStateSync`/`emitStateAsync` update and
`removeState`. -/
theorem reachable_states_unique {α : Type} (s : Emitter α) (h : Reachable s) :
    statesUnique s := by
  induction h with
  | init =>
    intro n
    simp
  | subscribeStep s n hh _ ih =>
    intro m
    rw [states_onEvent]
    exact ih m
  | offStep s beh hh _ ih =>
    intro m
    rw [states_off]
    exact ih m
  | offEventStep s beh n _ ih =>
    intro m
    rw [states_offEvent]
    exact ih m
  | offAllStep s _ ih =>
    intro m
    exact ih m
  | emitStateStep s beh n d _ ih => exact statesUnique_statesAfterEmitState n d ih
  | removeStateStep s n _ ih => exact statesUnique_removeState n ih
  | deriveStep s evs _ _ =>
    intro m
    simp

/-- Witness for C9 at a concrete reachable state. -/
theorem reachable_states_unique_witness :
    statesUnique ((EV.emitStateSync (⟨[], []⟩ : Emitter Nat) (fun _ => none) "x" 1).1) :=
  reachable_states_unique _ (Reachable.emitStateStep _ _ _ _ Reachable.init)

/-- C3: a rejected producer outcome is broadcast tagged with the same
`'resolve'` marker as a success, so every caller waiting on the key has its
promise resolved (not rejected) with the error value as result. -/
theorem cacheCall_rejection_tagged_resolve {α β : Type} (s : Emitter β) (key : String)
    (e r : α) :
    (CC.settleMessage (Except.error e)).type = (CC.settleMessage (Except.ok r)).type ∧
    CC.broadcastSettle s key (Except.error e)
      = List.replicate (EV.getEvents s key).length (CC.Settlement.resolved e) := by
  refine ⟨rfl, ?_⟩
  rw [CC.broadcastSettle]
  exact List.map_const' _ _

/-- C2 counterexample: with one callback result rejecting at tick 1 and the
other resolving at tick 5, the combined completion of `emitAsync`
(`Promise.all`) settles at tick 1, strictly before every callback result has
settled — the claimed reject-only-once-all-settled timing does not hold. -/
theorem emitAsync_all_settled_timing_cex :
    PM.emitAsyncSettled exEmitter "e" exWithRejection = ⟨1, some "boom"⟩ ∧
    PM.allSettledTime ((EV.getEvents exEmitter "e").map
      (fun ev => exWithRejection ev.eventHash)) = 5 ∧
    (PM.emitAsyncSettled exEmitter "e" exWithRejection).time
      < PM.allSettledTime ((EV.getEvents exEmitter "e").map
          (fun ev => exWithRejection ev.eventHash)) := by
  refine ⟨?_, ?_, ?_⟩ <;> decide

/-- C2 (amended): when no callback result rejects, `emitAsync`'s combined
completion resolves only once all results have resolved; when some result
rejects, the completion rejects with the reason of the earliest rejection at
the tick that rejection settles, without waiting for the remaining results
(which are not cancelled — the model has no cancellation). -/
theorem emitAsync_settlement_semantics {β γ : Type} (s : Emitter β) (n : String)
    (res : String → PM.TimedResult γ) :
    ((∀ r ∈ (EV.getEvents s n).map (fun ev => res ev.eventHash),
        PM.isRejection r = false) →
      PM.emitAsyncSettled s n res
          = ⟨PM.allSettledTime ((EV.getEvents s n).map (fun ev => res ev.eventHash)),
             none⟩ ∧
      ∀ r ∈ (EV.getEvents s n).map (fun ev => res ev.eventHash),
        r.time ≤ (PM.emitAsyncSettled s n res).time) ∧
    (∀ r ∈ (EV.getEvents s n).map (fun ev => res ev.eventHash),
      PM.isRejection r = true →
      ∃ x ∈ (EV.getEvents s n).map (fun ev => res ev.eventHash),
        PM.isRejection x = true ∧
        PM.emitAsyncSettled s n res = ⟨x.time, x.rejects⟩ ∧
        ∀ y ∈ (EV.getEvents s n).map (fun ev => res ev.eventHash),
          PM.isRejection y = true → x.time ≤ y.time) := by
  constructor
  · intro hall
    have he : PM.emitAsyncSettled s n res
        = ⟨PM.allSettledTime ((EV.getEvents s n).map (fun ev => res ev.eventHash)), none⟩ :=
      promiseAll_no_rejection hall
    refine ⟨he, ?_⟩
    intro r hr
    rw [he]
    exact le_allSettledTime hr
  · intro r hr hrj
    exact promiseAll_with_rejection hr hrj

/-- Witness for the amended C2: both settlement branches at concrete
inputs. -/
theorem emitAsync_settlement_semantics_witness :
    (PM.emitAsyncSettled exEmitter "e" exResolveAll
        = ⟨PM.allSettledTime ((EV.getEvents exEmitter "e").map
            (fun ev => exResolveAll ev.eventHash)), none⟩ ∧
      ∀ r ∈ (EV.getEvents exEmitter "e").map (fun ev => exResolveAll ev.eventHash),
        r.time ≤ (PM.emitAsyncSettled exEmitter "e" exResolveAll).time) ∧
    (∃ x ∈ (EV.getEvents exEmitter "e").map (fun ev => exWithRejection ev.eventHash),
      PM.isRejection x = true ∧
      PM.emitAsyncSettled exEmitter "e" exWithRejection = ⟨x.time, x.rejects⟩ ∧
      ∀ y ∈ (EV.getEvents exEmitter "e").map (fun ev => exWithRejection ev.eventHash),
        PM.isRejection y = true → x.time ≤ y.time) :=
  ⟨(emitAsync_settlement_semantics exEmitter "e" exResolveAll).1 (by decide),
   (emitAsync_settlement_semantics exEmitter "e" exWithRejection).2
     ⟨1, some "boom"⟩ (by decide) (by decide)⟩

/-- C1: a batch of `call(key, producer)` invocations issued in the same
synchronous tick schedules the producer exactly once when the key was idle
and not at all when `hasEvent(key)` already held; every invocation in the
batch registers exactly its own listener and nothing else. -/
theorem cacheCall_single_flight {α : Type} (s : CC.CacheState α) (key : String)
    (hashes : List String) (hne : hashes ≠ []) :
    (CC.callBatch s key hashes).pendingProducers.count key
        = s.pendingProducers.count key
          + (if EV.hasEvent s.emitter key = true then 0 else 1) ∧
    (CC.callBatch s key hashes).emitter.events
        = s.emitter.events ++ hashes.map (fun h => (⟨key, h⟩ : EventObject)) ∧
    (CC.callBatch s key hashes).emitter.states = s.emitter.states := by
  refine ⟨?_, callBatch_events key hashes s, callBatch_states key hashes s⟩
  cases hashes with
  | nil => exact absurd rfl hne
  | cons h t =>
    rw [callBatch_cons, callBatch_pending_active t (hasEvent_callSync s key h)]
    by_cases hk : EV.hasEvent s.emitter key = true
    · rw [callSync_pending_active h hk, if_pos hk]
      simp
    · have hkf : EV.hasEvent s.emitter key = false := by
        revert hk
        cases EV.hasEvent s.emitter key <;> simp
      rw [callSync_pending_idle h hkf, if_neg hk, List.count_append]
      simp

/-- Witness for C1: three same-tick callers on an idle key. -/
theorem cacheCall_single_flight_witness :
    (CC.callBatch (⟨⟨[], []⟩, []⟩ : CC.CacheState Nat) "k" ["a", "b", "c"]).pendingProducers.count "k"
        = (⟨⟨[], []⟩, []⟩ : CC.CacheState Nat).pendingProducers.count "k"
          + (if EV.hasEvent (⟨⟨[], []⟩, []⟩ : CC.CacheState Nat).emitter "k" = true then 0 else 1) ∧
    (CC.callBatch (⟨⟨[], []⟩, []⟩ : CC.CacheState Nat) "k" ["a", "b", "c"]).emitter.events
        = (⟨⟨[], []⟩, []⟩ : CC.CacheState Nat).emitter.events
          ++ ["a", "b", "c"].map (fun h => (⟨"k", h⟩ : EventObject)) ∧
    (CC.callBatch (⟨⟨[], []⟩, []⟩ : CC.CacheState Nat) "k" ["a", "b", "c"]).emitter.states
        = (⟨⟨[], []⟩, []⟩ : CC.CacheState Nat).emitter.states :=
  cacheCall_single_flight _ _ _ (by decide)

lemma count_trig_one {α : Type} {s : TV.TrigEmitter α} {t : EventObject} {key : String}
    (hut : List.Pairwise (fun a b => a.eventHash ≠ b.eventHash) s.offTriggers)
    (ht : t ∈ s.offTriggers) (heq : t.eventName = key) :
    (TV.trigHashes s key).count t.eventHash = 1 := by
  rw [count_trigHashes s key t hut ht, if_pos (by rw [heq]; exact beq_self_eq_true _)]

lemma count_trig_zero {α : Type} {s : TV.TrigEmitter α} {t : EventObject} {key : String}
    (hut : List.Pairwise (fun a b => a.eventHash ≠ b.eventHash) s.offTriggers)
    (ht : t ∈ s.offTriggers) (hne : t.eventName ≠ key) :
    (TV.trigHashes s key).count t.eventHash = 0 := by
  rw [count_trigHashes s key t hut ht, if_neg (by simp [hne])]

/-- C4 counterexample: in `src/src/eventEmitter.ts` the drained-name
emission of `off` is guarded by JavaScript truthiness of the name — removing
the last subscription whose name is the empty string fires no
`EventDrained` hook even though one is registered (a subscription on the
synthetic name `off_event_`). -/
theorem off_cascade_cex :
    (EV.off (⟨[⟨"", "a"⟩, ⟨"off_event_", "h"⟩], []⟩ : Emitter Nat) (fun _ => none) "a").2.1
      = [] ∧
    EV.getEvents ((EV.off (⟨[⟨"", "a"⟩, ⟨"off_event_", "h"⟩], []⟩ : Emitter Nat)
        (fun _ => none) "a").1) "" = [] ∧
    EV.getEvents (⟨[⟨"", "a"⟩, ⟨"off_event_", "h"⟩], []⟩ : Emitter Nat)
        ("off_event_" ++ "") ≠ [] := by
  refine ⟨?_, ?_, ?_⟩ <;> decide

/-- C4 (amended, proved for the trigger-table variant): for a registered
subscription id with name N, `off(id)` removes exactly that subscription and
fires, in order, the `SubscriptionRemoved(id)` triggers, then — only if no
subscription remains for N — the `EventDrained(N)` triggers, then — only if
no subscription remains at all — the `RegistryCleared` triggers; a present
`EventDrained(N)` trigger fires exactly once when N drains and not at all
otherwise, and a present `RegistryCleared` trigger fires exactly once when
the registry empties and not at all otherwise (given unique trigger ids and
collision-free synthetic hook names). -/
theorem offT_removal_cascade {α : Type} (s : TV.TrigEmitter α) (beh : Beh)
    (N id : String) (t u : EventObject)
    (hmem : (⟨N, id⟩ : EventObject) ∈ s.events)
    (hue : List.Pairwise (fun a b => a.eventHash ≠ b.eventHash) s.events)
    (hb : ∀ x, beh x = none)
    (hut : List.Pairwise (fun a b => a.eventHash ≠ b.eventHash) s.offTriggers)
    (ht : t ∈ s.offTriggers) (htn : t.eventName = TV.getOffEventName N)
    (hu1 : u ∈ s.offTriggers) (hun : u.eventName = TV.getOffAllName)
    (hc1 : TV.getOffEventName N ≠ TV.getOffName id)
    (hc2 : TV.getOffAllName ≠ TV.getOffName id)
    (hc3 : TV.getOffEventName N ≠ TV.getOffAllName) :
    TV.offT s beh id
      = ({ s with events := s.events.filter (fun m => !(m.eventHash == id)) },
         TV.trigHashes s (TV.getOffName id)
           ++ (if (s.events.filter (fun m => !(m.eventHash == id))).filter
                   (fun m => m.eventName == N) = []
               then TV.trigHashes s (TV.getOffEventName N) else [])
           ++ (if s.events.filter (fun m => !(m.eventHash == id)) = []
               then TV.trigHashes s TV.getOffAllName else []),
         none) ∧
    ((s.events.filter (fun m => !(m.eventHash == id))).filter
        (fun m => m.eventName == N) = [] →
      ((TV.offT s beh id).2.1).count t.eventHash = 1) ∧
    ((s.events.filter (fun m => !(m.eventHash == id))).filter
        (fun m => m.eventName == N) ≠ [] →
      ((TV.offT s beh id).2.1).count t.eventHash = 0) ∧
    (s.events.filter (fun m => !(m.eventHash == id)) = [] →
      ((TV.offT s beh id).2.1).count u.eventHash = 1) ∧
    (s.events.filter (fun m => !(m.eventHash == id)) ≠ [] →
      ((TV.offT s beh id).2.1).count u.eventHash = 0) := by
  have hfind : s.events.find? (fun m => m.eventHash == id) = some ⟨N, id⟩ :=
    find?_hash_unique hue hmem
  have hfire : ∀ key, TV.fireTriggers
      ({ s with events := s.events.filter (fun m => !(m.eventHash == id)) }) beh key
      = (TV.trigHashes s key, none) := fun key => fireTriggers_nothrow hb _ key
  have hcond : ∀ l : List EventObject,
      ((l.filter (fun m => some m.eventName == some N)).length ≤ 0)
        ↔ (l.filter (fun m => m.eventName == N) = []) := by
    intro l
    show ((l.filter (fun m => m.eventName == N)).length ≤ 0) ↔ _
    rw [Nat.le_zero, List.length_eq_zero]
  have hcondAll : ∀ l : List EventObject, (l.length ≤ 0) ↔ (l = []) := by
    intro l
    rw [Nat.le_zero, List.length_eq_zero]
  have hmain : TV.offT s beh id
      = ({ s with events := s.events.filter (fun m => !(m.eventHash == id)) },
         TV.trigHashes s (TV.getOffName id)
           ++ (if (s.events.filter (fun m => !(m.eventHash == id))).filter
                   (fun m => m.eventName == N) = []
               then TV.trigHashes s (TV.getOffEventName N) else [])
           ++ (if s.events.filter (fun m => !(m.eventHash == id)) = []
               then TV.trigHashes s TV.getOffAllName else []),
         none) := by
    simp only [TV.offT, hfind, Option.map_some', hfire]
    by_cases hd : (s.events.filter (fun m => !(m.eventHash == id))).filter
        (fun m => m.eventName == N) = []
    · by_cases he : s.events.filter (fun m => !(m.eventHash == id)) = []
      · rw [if_pos ((hcond _).mpr hd), if_pos ((hcondAll _).mpr he),
          if_pos hd, if_pos he]
      · rw [if_pos ((hcond _).mpr hd),
          if_neg (fun hx => he ((hcondAll _).mp hx)), if_pos hd, if_neg he]
    · have he : ¬ s.events.filter (fun m => !(m.eventHash == id)) = [] := by
        intro he
        exact hd (by rw [he]; rfl)
      rw [if_neg (fun hx => hd ((hcond _).mp hx)),
        if_neg (fun hx => he ((hcondAll _).mp hx)), if_neg hd, if_neg he]
  refine ⟨hmain, ?_, ?_, ?_, ?_⟩
  · intro hd
    rw [hmain]
    show (TV.trigHashes s (TV.getOffName id) ++ _ ++ _).count t.eventHash = 1
    rw [if_pos hd, List.count_append, List.count_append,
      count_trig_zero hut ht (by rw [htn]; exact hc1), count_trig_one hut ht htn]
    by_cases he : s.events.filter (fun m => !(m.eventHash == id)) = []
    · rw [if_pos he, count_trig_zero hut ht (by rw [htn]; exact hc3)]
    · rw [if_neg he, List.count_nil]
  · intro hd
    rw [hmain]
    show (TV.trigHashes s (TV.getOffName id) ++ _ ++ _).count t.eventHash = 0
    rw [if_neg hd, List.count_append, List.count_append,
      count_trig_zero hut ht (by rw [htn]; exact hc1), List.count_nil]
    by_cases he : s.events.filter (fun m => !(m.eventHash == id)) = []
    · rw [if_pos he, count_trig_zero hut ht (by rw [htn]; exact hc3)]
    · rw [if_neg he, List.count_nil]
  · intro he
    rw [hmain]
    show (TV.trigHashes s (TV.getOffName id) ++ _ ++ _).count u.eventHash = 1
    rw [if_pos he, List.count_append, List.count_append,
      count_trig_zero hut hu1 (by rw [hun]; exact hc2),
      count_trig_one hut hu1 hun]
    have hd : (s.events.filter (fun m => !(m.eventHash == id))).filter
        (fun m => m.eventName == N) = [] := by rw [he]; rfl
    rw [if_pos hd, count_trig_zero hut hu1 (by rw [hun]; exact (Ne.symm hc3))]
  · intro he
    rw [hmain]
    show (TV.trigHashes s (TV.getOffName id) ++ _ ++ _).count u.eventHash = 0
    rw [if_neg he, List.count_append, List.count_append,
      count_trig_zero hut hu1 (by rw [hun]; exact hc2), List.count_nil]
    by_cases hd : (s.events.filter (fun m => !(m.eventHash == id))).filter
        (fun m => m.eventName == N) = []
    · rw [if_pos hd, count_trig_zero hut hu1 (by rw [hun]; exact (Ne.symm hc3))]
    · rw [if_neg hd, List.count_nil]

/-- Witness for the amended C4: a registry with one remaining subscription
for another name, one drain trigger and one clear trigger. -/
theorem offT_removal_cascade_witness :
    TV.offT (⟨[⟨"n", "a"⟩, ⟨"m", "b"⟩],
        [⟨TV.getOffEventName "n", "t1"⟩, ⟨TV.getOffAllName, "t2"⟩], []⟩ :
        TV.TrigEmitter Nat) (fun _ => none) "a"
      = (⟨[⟨"m", "b"⟩],
          [⟨TV.getOffEventName "n", "t1"⟩, ⟨TV.getOffAllName, "t2"⟩], []⟩,
         ["t1"], none) ∧
    ((TV.offT (⟨[⟨"n", "a"⟩, ⟨"m", "b"⟩],
        [⟨TV.getOffEventName "n", "t1"⟩, ⟨TV.getOffAllName, "t2"⟩], []⟩ :
        TV.TrigEmitter Nat) (fun _ => none) "a").2.1).count "t1" = 1 ∧
    ((TV.offT (⟨[⟨"n", "a"⟩, ⟨"m", "b"⟩],
        [⟨TV.getOffEventName "n", "t1"⟩, ⟨TV.getOffAllName, "t2"⟩], []⟩ :
        TV.TrigEmitter Nat) (fun _ => none) "a").2.1).count "t2" = 0 := by
  have h := offT_removal_cascade
    (⟨[⟨"n", "a"⟩, ⟨"m", "b"⟩],
      [⟨TV.getOffEventName "n", "t1"⟩, ⟨TV.getOffAllName, "t2"⟩], []⟩ :
      TV.TrigEmitter Nat) (fun _ => none) "n" "a"
    ⟨TV.getOffEventName "n", "t1"⟩ ⟨TV.getOffAllName, "t2"⟩
    (by decide) (by decide) (fun _ => rfl) (by decide)
    (by decide) rfl (by decide) rfl
    (by decide) (by decide) (by decide)
  refine ⟨?_, h.2.1 (by decide), h.2.2.2.2 (by decide)⟩
  have hm := h.1
  rw [hm]
  decide

lemma flatMap_of_map {γ : Type} (l : List γ) (f : γ → String) (g : String → List String) :
    (l.map f).flatMap g = l.flatMap (fun x => g (f x)) := by
  induction l with
  | nil => rfl
  | cons a rest ih => simp [ih]

/-- C5 counterexample: `offAll()` of `src/src/eventEmitter.ts` resets the
subscription array and fires nothing at all — in particular it does not fire
the `SubscriptionRemoved("a")` hook (the subscription on `off_a`) that an
individual `unsubscribe("a")` would have fired. -/
theorem offAll_no_hooks_cex :
    EV.offAll (⟨[⟨"n", "a"⟩, ⟨"off_a", "h"⟩], []⟩ : Emitter Nat)
      = (⟨[], []⟩, [], none) ∧
    EV.getEvents (⟨[⟨"n", "a"⟩, ⟨"off_a", "h"⟩], []⟩ : Emitter Nat)
      ("off_" ++ "a") ≠ [] := by
  refine ⟨?_, ?_⟩ <;> decide

/-- C5 (amended, proved for the trigger-table variant): `offAll()` removes
every subscription and fires, in order, the `SubscriptionRemoved` triggers
of every removed id (in registration order), then the `EventDrained`
triggers of every distinct drained name, then the `RegistryCleared`
triggers; a present `RegistryCleared` trigger fires exactly once, after all
individual removals (given unique trigger ids and collision-free synthetic
hook names). -/
theorem offAllT_cascade {α : Type} (s : TV.TrigEmitter α) (beh : Beh) (u : EventObject)
    (hb : ∀ x, beh x = none)
    (hut : List.Pairwise (fun a b => a.eventHash ≠ b.eventHash) s.offTriggers)
    (hu1 : u ∈ s.offTriggers) (hun : u.eventName = TV.getOffAllName)
    (hcA : ∀ ev ∈ s.events, TV.getOffName ev.eventHash ≠ TV.getOffAllName)
    (hcB : ∀ nm ∈ s.events.map (fun m => m.eventName),
      TV.getOffEventName nm ≠ TV.getOffAllName) :
    TV.offAllT s beh
      = ({ s with events := [] },
         s.events.flatMap (fun ev => TV.trigHashes s (TV.getOffName ev.eventHash))
           ++ (TV.distinctList (s.events.map (fun m => m.eventName))).flatMap
                (fun nm => TV.trigHashes s (TV.getOffEventName nm))
           ++ TV.trigHashes s TV.getOffAllName) ∧
    ((TV.offAllT s beh).2).count u.eventHash = 1 := by
  have hmain : TV.offAllT s beh
      = ({ s with events := [] },
         s.events.flatMap (fun ev => TV.trigHashes s (TV.getOffName ev.eventHash))
           ++ (TV.distinctList (s.events.map (fun m => m.eventName))).flatMap
                (fun nm => TV.trigHashes s (TV.getOffEventName nm))
           ++ TV.trigHashes s TV.getOffAllName) := by
    simp only [TV.offAllT, fireSeq_nothrow hb]
    rw [List.flatMap_append, List.flatMap_append, flatMap_of_map, flatMap_of_map,
      flatMap_of_map]
    simp
  refine ⟨hmain, ?_⟩
  rw [hmain]
  show (s.events.flatMap (fun ev => TV.trigHashes s (TV.getOffName ev.eventHash))
      ++ (TV.distinctList (s.events.map (fun m => m.eventName))).flatMap
           (fun nm => TV.trigHashes s (TV.getOffEventName nm))
      ++ TV.trigHashes s TV.getOffAllName).count u.eventHash = 1
  rw [List.count_append, List.count_append,
    count_flatMap_zero _ _ _
      (fun ev hev => count_trig_zero hut hu1 (by rw [hun]; exact (hcA ev hev).symm)),
    count_flatMap_zero _ _ _
      (fun nm hnm => count_trig_zero hut hu1
        (by rw [hun]; exact (hcB nm (mem_of_mem_distinctList hnm)).symm)),
    count_trig_one hut hu1 hun]

/-- Witness for the amended C5: two subscriptions sharing a name, one
removal trigger, one drain trigger and one clear trigger. -/
theorem offAllT_cascade_witness :
    TV.offAllT (⟨[⟨"n", "a"⟩, ⟨"n", "b"⟩],
        [⟨TV.getOffName "a", "r1"⟩, ⟨TV.getOffEventName "n", "t1"⟩,
         ⟨TV.getOffAllName, "t2"⟩], []⟩ : TV.TrigEmitter Nat) (fun _ => none)
      = (⟨[], [⟨TV.getOffName "a", "r1"⟩, ⟨TV.getOffEventName "n", "t1"⟩,
              ⟨TV.getOffAllName, "t2"⟩], []⟩, ["r1", "t1", "t2"]) ∧
    ((TV.offAllT (⟨[⟨"n", "a"⟩, ⟨"n", "b"⟩],
        [⟨TV.getOffName "a", "r1"⟩, ⟨TV.getOffEventName "n", "t1"⟩,
         ⟨TV.getOffAllName, "t2"⟩], []⟩ : TV.TrigEmitter Nat)
        (fun _ => none)).2).count "t2" = 1 := by
  have h := offAllT_cascade
    (⟨[⟨"n", "a"⟩, ⟨"n", "b"⟩],
      [⟨TV.getOffName "a", "r1"⟩, ⟨TV.getOffEventName "n", "t1"⟩,
       ⟨TV.getOffAllName, "t2"⟩], []⟩ : TV.TrigEmitter Nat) (fun _ => none)
    ⟨TV.getOffAllName, "t2"⟩ (fun _ => rfl) (by decide) (by decide) rfl
    (by decide) (by decide)
  refine ⟨?_, h.2⟩
  rw [h.1]
  decide

/-- C7 counterexample: `off` with an id that is not registered is not
hook-silent: with a `SubscriptionRemoved("x")` hook registered (in
`src/src/eventEmitter.ts` hooks are subscriptions on the synthetic name
`off_x`) and no subscription whose hash is `x`, `off("x")` invokes that hook
callback. -/
theorem off_unknown_id_fires_hooks_cex :
    EV.has (⟨[⟨"off_x", "h"⟩], []⟩ : Emitter Nat) "x" = false ∧
    (EV.off (⟨[⟨"off_x", "h"⟩], []⟩ : Emitter Nat) (fun _ => none) "x").2.1
      = [((none : Option Nat), "h")] := by
  refine ⟨?_, ?_⟩ <;> decide

/-- C7 (amended): `off(id)` for an unknown id raises no error (when no fired
callback throws), removes nothing and leaves the state table unchanged, but
it still emits the synthetic `off_${id}` event, so `SubscriptionRemoved(id)`
hooks registered for that id do fire. -/
theorem off_unknown_id_noop {α : Type} (s : Emitter α) (beh : Beh) (h : String)
    (hh : EV.has s h = false) (hb : ∀ x, beh x = none) :
    EV.off s beh h
      = (s, (EV.getEvents s ("off_" ++ h)).map
              (fun ev => ((none : Option α), ev.eventHash)), none) := by
  have hev : ({ s with events := s.events.filter (fun m => !(m.eventHash == h)) } : Emitter α)
      = s := by
    rw [filter_ne_hash_eq_self hh]
  simp only [EV.off, find?_hash_eq_none hh, Option.map_none', hev, EV.emitSyncRun,
    runCallbacks_nothrow hb]

/-- Witness for the amended C7. -/
theorem off_unknown_id_noop_witness :
    EV.off (⟨[⟨"off_x", "h"⟩], []⟩ : Emitter Nat) (fun _ => none) "x"
      = (⟨[⟨"off_x", "h"⟩], []⟩,
         (EV.getEvents (⟨[⟨"off_x", "h"⟩], []⟩ : Emitter Nat) ("off_" ++ "x")).map
           (fun ev => ((none : Option Nat), ev.eventHash)), none) :=
  off_unknown_id_noop _ _ _ (by decide) (fun _ => rfl)

/-- C8 counterexample: in `src/src/eventEmitter.ts` the hook emissions of
`off` run with no `try`/`catch`; a `SubscriptionRemoved("a")` hook
(subscription on `off_a`) whose callback throws makes `off("a")` propagate
the exception to its caller. -/
theorem off_hook_exception_propagates_cex :
    EV.has (⟨[⟨"n", "a"⟩, ⟨"off_a", "h"⟩], []⟩ : Emitter Nat) "a" = true ∧
    (EV.off (⟨[⟨"n", "a"⟩, ⟨"off_a", "h"⟩], []⟩ : Emitter Nat)
        (fun x => if x = "h" then some "boom" else none) "a").2.2 = some "boom" := by
  refine ⟨?_, ?_⟩ <;> decide

/-- C8 (amended): in the trigger-table variant the whole hook cascade of
`off` runs inside `try { ... } catch { /* IGNORE */ }`, so no hook-callback
exception escapes to the caller of `off`, on any input. -/
theorem offT_swallows_exceptions {α : Type} (s : TV.TrigEmitter α) (beh : Beh)
    (h : String) : (TV.offT s beh h).2.2 = none := by
  simp only [TV.offT]
  repeat' split
  all_goals rfl

end BerishEmitter
